import Mathlib

/-!
Verification of the WaveEye preprocessing core.

A shallow embedding, in Lean 4, of the parts of the WaveEye repository that
the specification's claims are about:

* `Preprocessing/mapping/mapping.py` — the identity normalizer, the
  connection-map builder, the value resolver and the table assembler;
* `Preprocessing/rtl/check_system.py` — module/port/signal extraction,
  instantiation scanning, connection flattening, missing-port detection and
  width-mismatch detection.

Python strings are modelled as `String`/`List Char`; the handful of regular
expressions the code uses are implemented as explicit character scans with
the same matching semantics (leftmost match, greedy/lazy behaviour and
backtracking worked out case by case, documented at each definition).
`\w`, `\d`, `\s` and `str.lower()` are modelled at their ASCII meaning.
Python dictionaries are modelled either as association lists with
update-in-place insertion (`upsertPair`) or, where only lookup matters, as
lookup functions; `sorted(set(...))` is modelled as `dedup` followed by
`mergeSort`.
-/

namespace WaveEye

/-! ## Character-level utilities -/

/-- ASCII model of the regex class `\w` = `[A-Za-z0-9_]`. -/
def isWordChar (c : Char) : Bool :=
  c.isAlpha || c.isDigit || c = '_'

/-- ASCII model of the regex class `\s` (whitespace). -/
def isSpaceChar (c : Char) : Bool :=
  c = ' ' || c = '\t' || c = '\n' || c = '\r' || c = '\x0b' || c = '\x0c'

/-- Drop a (possibly empty) run of whitespace: the regex `\s*`. -/
def dropSpaces : List Char → List Char
  | [] => []
  | c :: rest => if isSpaceChar c then dropSpaces rest else c :: rest

/-- Split off the maximal run of `\w` characters: the greedy regex `\w*`. -/
def takeWord : List Char → List Char × List Char
  | [] => ([], [])
  | c :: rest =>
    if isWordChar c then
      let p := takeWord rest
      (c :: p.1, p.2)
    else ([], c :: rest)

theorem dropSpaces_length_le : ∀ l : List Char, (dropSpaces l).length ≤ l.length := by
  intro l
  induction l with
  | nil => simp [dropSpaces]
  | cons c rest ih =>
    simp only [dropSpaces]
    split
    · exact Nat.le_trans ih (Nat.le_succ _)
    · simp

/-- Python `str.strip()`: whitespace removed from both ends (structural,
    so that it evaluates inside the kernel). -/
def pyStrip (s : String) : String :=
  String.mk (((s.toList.dropWhile isSpaceChar).reverse.dropWhile isSpaceChar).reverse)

/-- Python `str.rstrip()`: whitespace removed from the right end. -/
def pyRstrip (s : String) : String :=
  String.mk ((s.toList.reverse.dropWhile isSpaceChar).reverse)

theorem takeWord_length_le : ∀ l : List Char, (takeWord l).2.length ≤ l.length := by
  intro l
  induction l with
  | nil => simp [takeWord]
  | cons c rest ih =>
    simp only [takeWord]
    split
    · exact Nat.le_trans ih (Nat.le_succ _)
    · simp

/-! ## The identity normalizer (`mapping.py`, `normalize`)

```python
def normalize(name):
    name = re.sub(r'^[^.]*\.dut\.', '', name)
    name = re.sub(r'^[^.]*\.tb\.', '', name)
    name = re.sub(r'^top\.', '', name)
    name = re.sub(r"\[.*?\]", "", name)
    return name.lower()
```

The anchored pattern `^[^.]*\.<tag>\.` can only match by running `[^.]*` up
to the first dot of the string, so it matches exactly when the text after
the first dot starts with `<tag>.`; the substitution then drops everything
through that `<tag>.`. -/

/-- The suffix after the first `.` of the string, when a dot exists. -/
def afterFirstDot : List Char → Option (List Char)
  | [] => none
  | '.' :: rest => some rest
  | _ :: rest => afterFirstDot rest

/-- `re.sub(r'^[^.]*\.<tag>\.', '', name)` where `tag` is `"dut."` or `"tb."`
    (the tag includes its trailing dot). -/
def stripHierTag (tag : List Char) (cs : List Char) : List Char :=
  match afterFirstDot cs with
  | some rest => if tag.isPrefixOf rest then rest.drop tag.length else cs
  | none => cs

/-- `re.sub(r'^top\.', '', name)`. -/
def stripTop (cs : List Char) : List Char :=
  if ('t' :: 'o' :: 'p' :: '.' :: []).isPrefixOf cs then cs.drop 4 else cs

/-- After a `[`, find the suffix after the first `]`, provided no newline
    intervenes (`.` in `\[.*?\]` does not match a newline). -/
def chopBracket : List Char → Option (List Char)
  | [] => none
  | ']' :: rest => some rest
  | '\n' :: _ => none
  | _ :: rest => chopBracket rest

theorem chopBracket_length_lt :
    ∀ l l' : List Char, chopBracket l = some l' → l'.length < l.length := by
  intro l
  induction l with
  | nil => intro l' h; simp [chopBracket] at h
  | cons c rest ih =>
    intro l' h
    by_cases hc : c = ']'
    · subst hc
      simp only [chopBracket] at h
      cases h
      simp
    · by_cases hn : c = '\n'
      · subst hn; simp [chopBracket] at h
      · rw [show chopBracket (c :: rest) = chopBracket rest by
          cases c; simp_all [chopBracket]] at h
        exact Nat.lt_trans (ih l' h) (Nat.lt_succ_self _)

/-- Global `re.sub(r"\[.*?\]", "", name)`: repeatedly delete from each `[`
    to the nearest following `]` (the lazy `.*?` stops at the first `]`,
    and cannot cross a newline); a `[` with no such `]` is kept.
    The recursion is driven by a fuel argument so that it is structural
    (and hence kernel-evaluable); `fuel = cs.length` always suffices
    because a successful `chopBracket` strictly shortens the list. -/
def removeBracketsFuel : Nat → List Char → List Char
  | 0, cs => cs
  | _fuel + 1, [] => []
  | fuel + 1, c :: rest =>
    if c = '[' then
      match chopBracket rest with
      | some rest' => removeBracketsFuel fuel rest'
      | none => c :: removeBracketsFuel fuel rest
    else c :: removeBracketsFuel fuel rest

def removeBrackets (cs : List Char) : List Char :=
  removeBracketsFuel cs.length cs

/-- With fuel at least the length of the list, `removeBracketsFuel` never
    hits its out-of-fuel base case, so `removeBrackets` is well defined. -/
theorem removeBracketsFuel_adequate :
    ∀ fuel fuel' cs, cs.length ≤ fuel → cs.length ≤ fuel' →
      removeBracketsFuel fuel cs = removeBracketsFuel fuel' cs := by
  intro fuel
  induction fuel with
  | zero =>
    intro fuel' cs h _
    have : cs = [] := List.length_eq_zero.mp (Nat.le_zero.mp h)
    subst this
    cases fuel' <;> rfl
  | succ n ih =>
    intro fuel' cs h h'
    cases cs with
    | nil => cases fuel' <;> rfl
    | cons c rest =>
      cases fuel' with
      | zero => simp at h'
      | succ m =>
        simp only [removeBracketsFuel]
        have hr : rest.length ≤ n := by simpa using h
        have hr' : rest.length ≤ m := by simpa using h'
        by_cases hc : c = '['
        · simp only [if_pos hc]
          cases hcb : chopBracket rest with
          | some rest' =>
            have hlt := chopBracket_length_lt rest rest' hcb
            exact ih m rest' (by omega) (by omega)
          | none => rw [ih m rest hr hr']
        · simp only [if_neg hc]
          rw [ih m rest hr hr']

/-- ASCII model of `str.lower()`. -/
def lowerChars (cs : List Char) : List Char := cs.map Char.toLower

/-- `mapping.py` — `normalize`: strip one `<seg>.dut.` prefix, then one
    `<seg>.tb.` prefix, then a `top.` prefix, then every array-index
    bracket group, then lowercase. -/
def normalize (s : String) : String :=
  String.mk (lowerChars (removeBrackets (stripTop
    (stripHierTag ('t' :: 'b' :: '.' :: [])
      (stripHierTag ('d' :: 'u' :: 't' :: '.' :: []) s.toList)))))

/-! ## Empty-value test (`mapping.py`, `is_empty_value`) -/

/-- `mapping.py` — `is_empty_value`:
```python
v = val.strip()
return not v or v in ['', '-', '?']
```
`x` and `z` are valid HDL values and are not empty. -/
def is_empty_value (val : String) : Bool :=
  let v := pyStrip val
  v = "" || v = "-" || v = "?"

/-! ## Connections and the connection map (`mapping.py`, `build_connection_map`)

A `Conn` is one record of `connectivity['connections_direct']`, i.e. one
direct edge produced by `check_system.analyze_system`. -/

structure Conn where
  parent_module : String
  child_module : String
  instanceName : String
  child_port : String
  parent_signal : String
deriving DecidableEq, Repr

/-- `parent_sig.split('[')[0]` / `child_port.split('[')[0]`: the text before
    the first `[`. -/
def beforeBracket (s : String) : String :=
  String.mk (s.toList.takeWhile (fun c => c ≠ '['))

/-- Parent-side name variations generated for one connection. -/
def parentNames (c : Conn) : List String :=
  [c.parent_signal, c.parent_module ++ "." ++ c.parent_signal, beforeBracket c.parent_signal]

/-- Child-side name variations generated for one connection. -/
def childNames (c : Conn) : List String :=
  [c.child_port, c.instanceName ++ "." ++ c.child_port, beforeBracket c.child_port]

/-- All `(key, partner)` insertions performed by `build_connection_map`:
    for each connection, each parent variation is paired with each child
    variation, and the pair is inserted in both directions. -/
def connMapEntries (conns : List Conn) : List (String × String) :=
  conns.flatMap (fun c =>
    (parentNames c).flatMap (fun p =>
      (childNames c).flatMap (fun ch => [(p, ch), (ch, p)])))

/-- Keys of a Python dict built by repeated insertion: every key (as
    projected by `f`), in first-insertion order, without duplicates. -/
def keyAccum (f : α → String) (ps : List α) : List String :=
  ps.foldl (fun acc p => if f p ∈ acc then acc else acc ++ [f p]) []

/-- Keys of the connection-map dict, in first-insertion order. -/
def firstOccurKeys (ps : List (String × String)) : List String :=
  keyAccum (fun p => p.1) ps

/-- `mapping.py` — `build_connection_map`: the dict mapping every inserted
    key to its list of partners with duplicates removed
    (`list(set(conn_map[key]))`; the set makes the order of each partner
    list unspecified in Python, modelled here with `dedup`). -/
def build_connection_map (conns : List Conn) : List (String × List String) :=
  (firstOccurKeys (connMapEntries conns)).map (fun k =>
    (k, ((connMapEntries conns).filterMap
          (fun e => if e.1 = k then some e.2 else none)).dedup))

/-- Dict lookup on an association list whose keys are unique. -/
def lookupCM (m : List (String × List String)) (k : String) : Option (List String) :=
  (m.find? (fun p => p.1 = k)).map (fun p => p.2)

/-! ## The value resolver (`mapping.py`, `find_connected_signal` and the
     fallback branch of `build_table`) -/

/-- `s.split(sep)` keeping empty pieces, as a structural scan. -/
def splitCharAux (sep : Char) : List Char → List Char → List (List Char)
  | [], acc => [acc.reverse]
  | c :: rest, acc =>
    if c = sep then acc.reverse :: splitCharAux sep rest []
    else splitCharAux sep rest (c :: acc)

def splitChar (sep : Char) (cs : List Char) : List (List Char) :=
  splitCharAux sep cs []

/-- `connected_sig.split('.')[-1]` / `h.split('.')[-1]`: the text after the
    last dot (the whole string when there is no dot). -/
def lastComp (s : String) : String :=
  String.mk ((splitChar '.' s.toList).getLastD s.toList)

/-- First list element satisfying `p`, together with its index
    (`headers.index(...)` / the `for i, h in enumerate(headers)` loops). -/
def firstMatch (p : String → Bool) : List String → Nat → Option (String × Nat)
  | [], _ => none
  | h :: t, i => if p h then some (h, i) else firstMatch p t (i + 1)

/-- Strategy 1: exact string match against the waveform column headers. -/
def strategyExact (headers : List String) (c : String) : Option (String × Nat) :=
  firstMatch (fun h => h = c) headers 0

/-- Strategy 2: identity-normalizer-equal match. -/
def strategyNorm (headers : List String) (c : String) : Option (String × Nat) :=
  firstMatch (fun h => normalize h = normalize c) headers 0

/-- Strategy 3: last-component match — the header's text after its final
    dot, array-stripped and lowercased, equals the candidate's text after
    its final dot, lowercased. -/
def strategyLastComp (headers : List String) (c : String) : Option (String × Nat) :=
  firstMatch (fun h =>
    String.mk (lowerChars (removeBrackets (lastComp h).toList)) =
      String.mk (lowerChars (lastComp c).toList)) headers 0

/-- Strategy 4: suffix match — a header ending in `.<candidate>` or
    `_<candidate>`. -/
def strategySuffix (headers : List String) (c : String) : Option (String × Nat) :=
  firstMatch (fun h => ('.' :: c.toList).isSuffixOf h.toList ||
    ('_' :: c.toList).isSuffixOf h.toList) headers 0

/-- One candidate attempt: the four strategies tried in order. -/
def tryCandidate (headers : List String) (c : String) : Option (String × Nat) :=
  (strategyExact headers c).orElse (fun _ =>
    (strategyNorm headers c).orElse (fun _ =>
      (strategyLastComp headers c).orElse (fun _ =>
        strategySuffix headers c)))

/-- The candidate loop of `find_connected_signal`: the first candidate for
    which some strategy succeeds wins (the loop returns as soon as any
    strategy matches, regardless of the matched column's value). -/
def firstHit (headers : List String) : List String → Option (String × Nat)
  | [] => none
  | c :: rest =>
    match tryCandidate headers c with
    | some r => some r
    | none => firstHit headers rest

/-- `mapping.py` — `find_connected_signal(sig_name, headers, conn_map)`. -/
def find_connected_signal (sigName : String) (headers : List String)
    (connMap : List (String × List String)) : Option (String × Nat) :=
  match lookupCM connMap sigName with
  | none => none
  | some cands => firstHit headers cands

/-- A sampled waveform row: ordered association of column name to value. -/
abbrev Row := List (String × String)

/-- `row.get(k, "")` on a sampled row. -/
def rowGet (row : Row) (k : String) : String :=
  match row.find? (fun p => p.1 = k) with
  | some p => p.2
  | none => ""

/-- Column names of a row, in order (`list(row.keys())`). -/
def rowKeys (row : Row) : List String := row.map (fun p => p.1)

/-- The per-cell fallback branch of `build_table` (`mapping.py` lines
    271–286): given the directly-matched `value` for metadata signal
    `metaSig` in `row`, consult the connection map only when the value is
    empty and the map is non-empty; copy the connected column's value only
    when that value is in turn non-empty (`connected_name` must also be
    truthy, i.e. a non-empty string). -/
def resolveCell (connMap : List (String × List String)) (row : Row)
    (metaSig value : String) : String :=
  if is_empty_value value ∧ connMap ≠ [] then
    match find_connected_signal metaSig (rowKeys row) connMap with
    | some (connectedName, _) =>
      if connectedName ≠ "" then
        let connectedValue := rowGet row connectedName
        if ¬ is_empty_value connectedValue then connectedValue else value
      else value
    | none => value
  else value

/-! ## Waveform-to-metadata matching (`mapping.py`, `match_waveform_signals`)

The metadata map is the item list of the Python dict loaded by
`load_metadata`: signal name → classification label, keys unique. -/

/-- Lookup in the `meta_norm` dict of `match_waveform_signals`: for every
    metadata signal, both its full normalization and its lowercased last
    component are written as keys (in metadata order, later writes
    overwriting earlier ones), so a key resolves to the **last** metadata
    signal producing it. -/
def metaNormLookup (metadata : List (String × String)) (k : String) : Option String :=
  (metadata.reverse.find? (fun p =>
    normalize p.1 = k ∨ String.mk (lowerChars (lastComp p.1).toList) = k)).map (fun p => p.1)

/-- `'.'.join(parts[-2:])`: the last two dot-components, rejoined (used
    only when at least two components exist). -/
def lastTwoJoined (parts : List (List Char)) : String :=
  match parts.reverse with
  | p2 :: p1 :: _ => String.mk (p1 ++ '.' :: p2)
  | [p] => String.mk p
  | [] => ""

/-- The per-waveform-column matching of `match_waveform_signals`:
    strategy 1 — full normalized match; strategy 2 — last component,
    array-stripped and lowercased; strategy 3 — last two components of the
    normalized name (for `instance.port` style names). -/
def matchEntry (metadata : List (String × String)) (wfSig : String) : Option String :=
  let cleaned := normalize wfSig
  match metaNormLookup metadata cleaned with
  | some m => some m
  | none =>
    let wfBase := String.mk (lowerChars (removeBrackets (lastComp wfSig).toList))
    match metaNormLookup metadata wfBase with
    | some m => some m
    | none =>
      if '.' ∈ cleaned.toList then
        let parts := splitChar '.' cleaned.toList
        if parts.length ≥ 2 then metaNormLookup metadata (lastTwoJoined parts)
        else none
      else none

/-- `mapping.py` — `match_waveform_signals(waveform_row, metadata_map)`:
    the mapping from waveform column name to metadata signal, in waveform
    column order. -/
def match_waveform_signals (row : Row) (metadata : List (String × String)) :
    List (String × String) :=
  (rowKeys row).filterMap (fun w => (matchEntry metadata w).map (fun m => (w, m)))

/-! ## The table assembler (`mapping.py`, `build_table`) -/

/-- Python dict assignment `d[k] = v` on an association list: update in
    place when the key exists, append otherwise. -/
def upsertPair : List (String × String) → String × String → List (String × String)
  | [], p => [p]
  | q :: rest, p => if q.1 = p.1 then (q.1, p.2) :: rest else q :: upsertPair rest p

/-- `next(c for c in row.keys() if c.startswith("time_"))`, as an `Option`
    (`none` models the `StopIteration` the Python raises). -/
def findTimeCol (row : Row) : Option String :=
  (rowKeys row).find? (fun c =>
    ('t' :: 'i' :: 'm' :: 'e' :: '_' :: []).isPrefixOf c.toList)

/-- Python truthiness of the `clock_column` variable (`None` and the empty
    string are falsy). -/
def clockTruthy : Option String → Bool
  | none => false
  | some s => s ≠ ""

/-- One output row dict `e` of the `build_table` loop: the row's time
    column, then the clock column when `clock_column` is truthy, then every
    other metadata signal's resolved value. -/
def buildRow (metadata : List (String × String)) (signalMap : List (String × String))
    (clockColumn : Option String) (connMap : List (String × List String))
    (tc : String) (row : Row) : Row :=
  let e0 : Row := [(tc, rowGet row tc)]
  let e1 : Row :=
    if clockTruthy clockColumn then
      let cc := clockColumn.getD ""
      let wfSig := (signalMap.find? (fun p => p.2 = cc)).map (fun p => p.1)
      upsertPair e0 (cc, match wfSig with | some w => rowGet row w | none => "")
    else e0
  metadata.foldl (fun e p =>
    if some p.1 = clockColumn then e
    else
      let wfSig := (signalMap.find? (fun q => q.2 = p.1)).map (fun q => q.1)
      let value := match wfSig with | some w => rowGet row w | none => ""
      upsertPair e (p.1, resolveCell connMap row p.1 value)) e1

/-- The `ordered` column list of `build_table`: detected time column, then
    the clock column when truthy, then every metadata signal not already
    listed, in metadata order. -/
def orderedCols (metadata : List (String × String)) (clockColumn : Option String)
    (tc : String) : List String :=
  let base := [tc] ++ (if clockTruthy clockColumn then [clockColumn.getD ""] else [])
  base ++ (metadata.map (fun p => p.1)).filter (fun s => s ∉ base)

/-- The classification row of `build_table`: empty for the time column,
    `"clock"` for the clock column, otherwise
    `metadata_map.get(col, "other")`. -/
def classRowOf (metadata : List (String × String)) (clockColumn : Option String)
    (tc : String) (cols : List String) : List String :=
  cols.map (fun col =>
    if col = tc then ""
    else if some col = clockColumn then "clock"
    else match metadata.find? (fun p => p.1 = col) with
      | some p => p.2
      | none => "other")

/-- Collect an `Option`-valued map over a list, failing when any element
    fails (the per-row `next(...)` of the `build_table` loop raises on the
    first bad row; only success/failure and the successful value are
    observable). -/
def mapOption (f : α → Option β) : List α → Option (List β)
  | [] => some []
  | a :: l =>
    match f a, mapOption f l with
    | some b, some bs => some (b :: bs)
    | _, _ => none

/-- `mapping.py` — `build_table`: the written CSV as
    (classification row, header row, data rows). `none` models the Python
    exceptions on an empty waveform (`waveform[0]` raises) or a row with no
    `time_`-named column (`next(...)` raises). The `pandas` reindexing
    `df[ordered]` is modelled by reading each row dict back in `ordered`
    order; the `ordered` list itself uses the time column detected in the
    loop's final iteration, exactly as the leaked Python loop variable
    does. -/
def build_table (metadata : List (String × String)) (clockSignals : List String)
    (waveform : List Row) (connectivity : Option (List Conn)) :
    Option (List String × List String × List (List String)) :=
  match waveform with
  | [] => none
  | r0 :: rest =>
    let signalMap := match_waveform_signals r0 metadata
    let connMap := match connectivity with
      | some cs => build_connection_map cs
      | none => []
    let clockColumn := ((signalMap.find? (fun p => p.2 ∈ clockSignals)).map
      (fun p => p.2))
    match mapOption (fun row =>
        (findTimeCol row).map (fun tc =>
          buildRow metadata signalMap clockColumn connMap tc row)) (r0 :: rest) with
    | none => none
    | some es =>
      match findTimeCol ((r0 :: rest).getLast (List.cons_ne_nil r0 rest)) with
      | none => none
      | some tcLast =>
        let cols := orderedCols metadata clockColumn tcLast
        some (classRowOf metadata clockColumn tcLast cols, cols,
          es.map (fun e => cols.map (fun c => rowGet e c)))

/-! ## Comment stripping (`check_system.py`, `strip_comments`) -/

/-- The suffix starting at the first newline (the region a `//` comment
    deletes runs to the end of the line, `.` not matching `\n`). -/
def dropLine : List Char → List Char
  | [] => []
  | c :: rest => if c = '\n' then c :: rest else dropLine rest

/-- The suffix after the first `*/`. -/
def findCloseBlock : List Char → Option (List Char)
  | [] => none
  | '*' :: '/' :: rest => some rest
  | _ :: rest => findCloseBlock rest

/-- `re.sub(r"//.*", "", s)`, fuel-structural. -/
def removeLineCommentsFuel : Nat → List Char → List Char
  | 0, cs => cs
  | _fuel + 1, [] => []
  | fuel + 1, '/' :: '/' :: rest => removeLineCommentsFuel fuel (dropLine rest)
  | fuel + 1, c :: rest => c :: removeLineCommentsFuel fuel rest

/-- `re.sub(r"/\*.*?\*/", "", s, flags=re.S)`, fuel-structural: lazy match
    to the nearest `*/`; an unterminated `/*` is left in place. -/
def removeBlockCommentsFuel : Nat → List Char → List Char
  | 0, cs => cs
  | _fuel + 1, [] => []
  | fuel + 1, '/' :: '*' :: rest =>
    (match findCloseBlock rest with
     | some rest' => removeBlockCommentsFuel fuel rest'
     | none => '/' :: removeBlockCommentsFuel fuel ('*' :: rest))
  | fuel + 1, c :: rest => c :: removeBlockCommentsFuel fuel rest

/-- `check_system.py` — `strip_comments`: line comments removed first, then
    block comments. -/
def strip_comments (s : String) : String :=
  let cs := removeLineCommentsFuel s.toList.length s.toList
  String.mk (removeBlockCommentsFuel cs.length cs)

/-! ## Module-name detection (`check_system.py`, `detect_module_name`) -/

/-- `re.match(r"\s*module\s+(\w+)", line)`: optional whitespace, the word
    `module`, at least one whitespace, then the captured identifier. -/
def parseModuleName (cs : List Char) : Option String :=
  let cs1 := dropSpaces cs
  if ('m' :: 'o' :: 'd' :: 'u' :: 'l' :: 'e' :: []).isPrefixOf cs1 then
    match cs1.drop 6 with
    | c :: rest =>
      if isSpaceChar c then
        let p := takeWord (dropSpaces rest)
        if p.1 ≠ [] then some (String.mk p.1) else none
      else none
    | [] => none
  else none

/-- `check_system.py` — `detect_module_name`: the first line carrying a
    `module <name>` declaration names the file's module; when no line does,
    the sentinel `"unknown_module"` is returned (no error is raised). -/
def detect_module_name : List String → String
  | [] => "unknown_module"
  | l :: rest =>
    match parseModuleName ((pyStrip (strip_comments l)).toList) with
    | some n => n
    | none => detect_module_name rest

/-! ## Port and signal extraction (`check_system.py`,
     `detect_ports_and_signals`) -/

/-- Substring test (`");" in line`). -/
def hasSubstr (pat : List Char) : List Char → Bool
  | [] => pat.isEmpty
  | c :: rest => pat.isPrefixOf (c :: rest) || hasSubstr pat rest

/-- The module-header collection loop: once a `module` declaration line is
    seen, collect (comment-stripped) lines until the first containing
    `");"`. -/
def headerScan : List String → Bool → List String
  | [], _ => []
  | l :: rest, inHeader =>
    let line := strip_comments l
    let ih := inHeader || (parseModuleName line.toList).isSome
    if ih then
      if hasSubstr (')' :: ';' :: []) line.toList then [line]
      else line :: headerScan rest true
    else headerScan rest false

/-- First alternative of a regex alternation that matches as a literal at
    the current position; returns the rest of the input. -/
def matchAltLits (lits : List (List Char)) (cs : List Char) : Option (List Char) :=
  match lits with
  | [] => none
  | lit :: more =>
    if lit.isPrefixOf cs then some (cs.drop lit.length) else matchAltLits more cs

/-- `\[[^\]]+\]`: a bracket group with a non-empty, `]`-free body. -/
def parseBracketGroup (cs : List Char) : Option (List Char) :=
  match cs with
  | '[' :: rest =>
    let inner := rest.takeWhile (fun c => c ≠ ']')
    if inner ≠ [] ∧ (rest.drop inner.length).take 1 = [']'] then
      some (rest.drop (inner.length + 1))
    else none
  | _ => none

/-- A non-empty `\w+`, captured together with the rest. -/
def parseWordPos (cs : List Char) : Option (List Char × List Char) :=
  let p := takeWord cs
  if p.1 ≠ [] then some (p.1, p.2) else none

/-- The shared tail `\s*(?:\[[^\]]+\]\s*)?(\w+)` of the port and signal
    extraction regexes, with the regex backtracking worked out: the bracket
    group is preferred, but if no identifier follows it the group is
    dropped again. -/
def portTail (cs : List Char) : Option (List Char × List Char) :=
  let cs1 := dropSpaces cs
  match parseBracketGroup cs1 with
  | some cs2 =>
    match parseWordPos (dropSpaces cs2) with
    | some r => some r
    | none => parseWordPos cs1
  | none => parseWordPos cs1

def dirLits : List (List Char) :=
  [('i' :: 'n' :: 'p' :: 'u' :: 't' :: []),
   ('o' :: 'u' :: 't' :: 'p' :: 'u' :: 't' :: []),
   ('i' :: 'n' :: 'o' :: 'u' :: 't' :: [])]

def kindLits : List (List Char) :=
  [('w' :: 'i' :: 'r' :: 'e' :: []),
   ('r' :: 'e' :: 'g' :: []),
   ('l' :: 'o' :: 'g' :: 'i' :: 'c' :: []),
   ('b' :: 'i' :: 't' :: [])]

/-- One attempt of the port regex
    `(?:input|output|inout)\s+(?:wire|reg|logic|bit)?\s*(?:\[[^\]]+\]\s*)?(\w+)`
    at the current position (note: no word boundaries — the direction
    keyword may match inside a longer word, and the optional kind keyword
    may swallow a prefix of the identifier). -/
def tryPortAt (cs : List Char) : Option (List Char × List Char) :=
  match matchAltLits dirLits cs with
  | none => none
  | some cs1 =>
    match cs1 with
    | c :: rest =>
      if isSpaceChar c then
        let cs2 := dropSpaces rest
        match matchAltLits kindLits cs2 with
        | some cs3 =>
          (match portTail cs3 with
           | some r => some r
           | none => portTail cs2)
        | none => portTail cs2
      else none
    | [] => none

/-- `re.findall` scan for the port regex over the joined header text. -/
def scanPortsFuel : Nat → List Char → List String
  | 0, _ => []
  | _fuel + 1, [] => []
  | fuel + 1, c :: rest =>
    match tryPortAt (c :: rest) with
    | some (w, rest') => String.mk w :: scanPortsFuel fuel rest'
    | none => scanPortsFuel fuel rest

/-- One attempt of the signal regex
    `\b(?:wire|reg|logic|bit)\b\s*(?:\[[^\]]+\]\s*)?(\w+)` at the current
    position (the leading word boundary is checked by the caller; the
    trailing one here). -/
def trySignalAt (cs : List Char) : Option (List Char × List Char) :=
  match matchAltLits kindLits cs with
  | none => none
  | some cs1 =>
    match cs1 with
    | c :: _ => if isWordChar c then none else portTail cs1
    | [] => portTail cs1

/-- `re.findall` scan for the signal regex over one line; `prevWord` tracks
    whether the previous character was a word character (for the leading
    `\b`). -/
def scanSignalsFuel : Nat → Bool → List Char → List String
  | 0, _, _ => []
  | _fuel + 1, _, [] => []
  | fuel + 1, prevWord, c :: rest =>
    if prevWord then scanSignalsFuel fuel (isWordChar c) rest
    else
      match trySignalAt (c :: rest) with
      | some (w, rest') => String.mk w :: scanSignalsFuel fuel true rest'
      | none => scanSignalsFuel fuel (isWordChar c) rest

/-- `" ".join(lines)`, as a character list. -/
def joinSpace : List String → List Char
  | [] => []
  | [l] => l.toList
  | l :: rest => l.toList ++ ' ' :: joinSpace rest

/-- `sorted(set(xs))` on strings: duplicates removed, then sorted in the
    code-point lexicographic order Python's `sorted` uses (on a
    duplicate-free list every correct sort agrees, so insertion sort is an
    exact model). -/
def sortedDedup (l : List String) : List String :=
  l.dedup.insertionSort (fun a b => a ≤ b)

/-- `check_system.py` — `detect_ports_and_signals`: ports are extracted
    from the module-header text, signals from every line; both results are
    returned as `sorted(set(...))`. -/
def detect_ports_and_signals (lines : List String) : List String × List String :=
  let headerText := joinSpace (headerScan lines false)
  let ports := scanPortsFuel headerText.length headerText
  let signals := lines.flatMap (fun l =>
    let line := (strip_comments l).toList
    scanSignalsFuel line.length false line)
  (sortedDedup ports, sortedDedup signals)

/-! ## Signal-expression tokenization (`check_system.py`,
     `tokenize_signal_expr`) -/

/-- `re.findall(r"[A-Za-z_]\w*", expr)` via a single left-to-right scan:
    a token starts at a letter or underscore and extends over the maximal
    run of word characters; the accumulator holds the current token
    reversed. -/
def tokAux : List Char → List Char → List String
  | [], acc => if acc.isEmpty then [] else [String.mk acc.reverse]
  | c :: rest, acc =>
    if acc.isEmpty then
      if c.isAlpha || c = '_' then tokAux rest [c] else tokAux rest []
    else
      if isWordChar c then tokAux rest (c :: acc)
      else String.mk acc.reverse :: tokAux rest []

def tokenize_signal_expr (s : String) : List String :=
  tokAux s.toList []

/-! ## Connection flattening (`check_system.py`, `flatten_connections`) -/

structure FlatConn where
  from_module : String
  from_signal_expr : String
  to_module : String
  to_signal : String
  via_instance : String
  via_module : String
  inner_expr : String
deriving DecidableEq, Repr

/-- The flattened record emitted for an outer connection `c` and an inner
    connection `d` of `c`'s child module. -/
def mkFlat (c d : Conn) : FlatConn :=
  ⟨c.parent_module, c.parent_signal, d.child_module, d.child_port,
   c.instanceName, c.child_module, d.parent_signal⟩

/-- Keys of the `by_parent` grouping dict, in first-occurrence order. -/
def connParentKeys (conns : List Conn) : List String :=
  keyAccum (fun c => c.parent_module) conns

/-- `by_parent[pm]`: the connections of one parent module, in input order. -/
def groupOf (conns : List Conn) (pm : String) : List Conn :=
  conns.filter (fun c => c.parent_module = pm)

/-- `check_system.py` — `flatten_connections`: for every connection `c`
    whose child module is itself a parent-module key, and every inner
    connection `d` of that child module whose parent-signal expression
    tokenizes to a set containing `c`'s child port, emit one flattened
    record. -/
def flatten_connections (conns : List Conn) : List FlatConn :=
  (connParentKeys conns).flatMap (fun pm =>
    (groupOf conns pm).flatMap (fun c =>
      if c.child_module ∈ connParentKeys conns then
        (groupOf conns c.child_module).flatMap (fun d =>
          if c.child_port ∈ tokenize_signal_expr d.parent_signal then [mkFlat c d]
          else [])
      else []))

/-! ## Missing-port detection (`check_system.py`,
     `detect_missing_connections`) -/

structure MissingIssue where
  instanceName : String
  submodule : String
  missing_ports : List String
deriving DecidableEq, Repr

/-- Lookup in the `system["modules"]` dict (`module_ports.get(submodule, [])`
    with last-declaration-wins key semantics). -/
def modulePortsLookup (modules : List (String × List String)) (m : String) : List String :=
  match modules.reverse.find? (fun p => p.1 = m) with
  | some p => p.2
  | none => []

/-- Distinct instance names of the connection list, in first-occurrence
    order (keys of the `instances` dict). -/
def instKeys (conns : List Conn) : List String :=
  keyAccum (fun c => c.instanceName) conns

/-- The submodule recorded for an instance: `setdefault` keeps the first
    connection's child module. -/
def submoduleOf (conns : List Conn) (i : String) : String :=
  match conns.find? (fun c => c.instanceName = i) with
  | some c => c.child_module
  | none => ""

/-- The set of child ports bound by any connection of this instance. -/
def boundPorts (conns : List Conn) (i : String) : List String :=
  (conns.filter (fun c => c.instanceName = i)).map (fun c => c.child_port)

/-- `sorted(all_ports - connected)` for one instance. -/
def missingFor (modules : List (String × List String)) (conns : List Conn)
    (i : String) : List String :=
  sortedDedup ((modulePortsLookup modules (submoduleOf conns i)).filter
    (fun p => p ∉ boundPorts conns i))

/-- `check_system.py` — `detect_missing_connections`: one issue per
    instance whose declared-port difference is non-empty. -/
def detect_missing_connections (modules : List (String × List String))
    (conns : List Conn) : List MissingIssue :=
  (instKeys conns).filterMap (fun i =>
    let missing := missingFor modules conns i
    if missing = [] then none
    else some ⟨i, submoduleOf conns i, missing⟩)

/-! ## Instantiation extraction (`check_system.py`,
     `detect_instantiations` and helpers) -/

structure Inst where
  submodule : String
  instanceName : String
  connections : List (String × String)
deriving DecidableEq, Repr

/-- `accumulate_until_close`: append (comment-stripped) lines, separated by
    single spaces, until the first line containing `");"` (the raw line is
    tested, the stripped line appended); returns the block and the number
    of lines consumed from `rest` (the closing line included). An
    unterminated block consumes everything. -/
def accumulateFrom (block : String) : List String → String × Nat
  | [] => (block, 0)
  | l :: rest =>
    if hasSubstr (')' :: ';' :: []) l.toList then (block ++ " " ++ strip_comments l, 1)
    else
      let p := accumulateFrom (block ++ " " ++ strip_comments l) rest
      (p.1, p.2 + 1)

/-- One attempt of the port-binding regex `\.(\w+)\s*\(\s*([^)]+?)\s*\)` at
    the current position: the binding expression is everything from the
    `(` to the nearest `)` (which must be non-empty), trimmed; the Python
    list comprehension strips it again, which the single trim subsumes. -/
def tryPortPairAt (cs : List Char) : Option ((String × String) × List Char) :=
  match cs with
  | '.' :: rest =>
    (match parseWordPos rest with
     | some (w, r1) =>
       (match dropSpaces r1 with
        | '(' :: r3 =>
          let inner := r3.takeWhile (fun c => c ≠ ')')
          (match r3.drop inner.length with
           | ')' :: r4 =>
             if inner ≠ [] then some ((String.mk w, pyStrip (String.mk inner)), r4)
             else none
           | _ => none)
        | _ => none)
     | none => none)
  | _ => none

/-- `re.findall` scan for port bindings over a port-connection block. -/
def scanPortPairsFuel : Nat → List Char → List (String × String)
  | 0, _ => []
  | _fuel + 1, [] => []
  | fuel + 1, c :: rest =>
    match tryPortPairAt (c :: rest) with
    | some (p, rest') => p :: scanPortPairsFuel fuel rest'
    | none => scanPortPairsFuel fuel rest

/-- `check_system.py` — `extract_port_pairs`. -/
def extract_port_pairs (block : String) : List (String × String) :=
  scanPortPairsFuel block.toList.length block.toList

/-- The dict comprehension `{p: s for p, s in extract_port_pairs(...)}`:
    duplicate port names keep their first position and last value. -/
def dictOfPairs (ps : List (String × String)) : List (String × String) :=
  ps.foldl upsertPair []

/-- `#\([^)]*\)`: an inline parameter group (no space between `#` and
    `(`; possibly empty, `)`-free body). -/
def parseParamGroup (cs : List Char) : Option (List Char) :=
  match cs with
  | '#' :: '(' :: rest =>
    let inner := rest.takeWhile (fun c => c ≠ ')')
    (match rest.drop inner.length with
     | ')' :: r => some r
     | _ => none)
  | _ => none

/-- An identifier `[A-Za-z_]\w*` followed by `\s*\(`. -/
def parseInstanceNameParen (cs : List Char) : Option String :=
  match cs with
  | c :: _ =>
    if c.isAlpha || c = '_' then
      match parseWordPos cs with
      | some (w2, r3) =>
        (match dropSpaces r3 with
         | '(' :: _ => some (String.mk w2)
         | _ => none)
      | none => none
    else none
  | [] => none

/-- `re.match(r"\s*(\w+)\s*(?:#\([^)]*\))?\s+([A-Za-z_]\w*)\s*\(", line)`:
    the inline instantiation shape. With the parameter group present, at
    least one whitespace must follow it; without it, at least one
    whitespace must separate the two identifiers (the regex backtracking
    collapses to exactly this, since an identifier can start with neither
    `#` nor whitespace). -/
def matchInline (cs : List Char) : Option (String × String) :=
  let cs0 := dropSpaces cs
  match parseWordPos cs0 with
  | none => none
  | some (w1, r1) =>
    match parseParamGroup (dropSpaces r1) with
    | some r3 =>
      (match r3 with
       | c :: rest3 =>
         if isSpaceChar c then
           (parseInstanceNameParen (dropSpaces rest3)).map (fun w2 => (String.mk w1, w2))
         else none
       | [] => none)
    | none =>
      match r1 with
      | c :: _ =>
        if isSpaceChar c then
          (parseInstanceNameParen (dropSpaces r1)).map (fun w2 => (String.mk w1, w2))
        else none
      | [] => none

/-- `re.match(r"\s*(\w+)\s*#\s*\(", line)`: the opening line of a
    parameterized multi-line instantiation. -/
def matchParamsStart (cs : List Char) : Option String :=
  let cs0 := dropSpaces cs
  match parseWordPos cs0 with
  | none => none
  | some (w1, r1) =>
    match dropSpaces r1 with
    | '#' :: r2 =>
      (match dropSpaces r2 with
       | '(' :: _ => some (String.mk w1)
       | _ => none)
    | _ => none

/-- One attempt of `\)\s+([A-Za-z_]\w*)\s*\(` at the current position. -/
def tryInstAt (cs : List Char) : Option String :=
  match cs with
  | ')' :: r1 =>
    (match r1 with
     | c :: rest =>
       if isSpaceChar c then parseInstanceNameParen (dropSpaces rest) else none
     | [] => none)
  | _ => none

/-- `re.search(r"\)\s+([A-Za-z_]\w*)\s*\(", candidate)`: first match. -/
def searchInstName : List Char → Option String
  | [] => none
  | c :: rest =>
    match tryInstAt (c :: rest) with
    | some w => some w
    | none => searchInstName rest

/-- `re.search(re.escape(inst_name) + r"\s*\(", full_block)`: the suffix of
    the block after the end of the first such match (i.e. after the `(`);
    `none` when the instance name is not found, in which case the caller
    uses the whole block. -/
def afterInstParen (name : List Char) : List Char → Option (List Char)
  | [] => none
  | c :: rest =>
    if name.isPrefixOf (c :: rest) then
      match dropSpaces ((c :: rest).drop name.length) with
      | '(' :: r => some r
      | _ => afterInstParen name rest
    else afterInstParen name rest

/-- The port-connection block for an identified instance, and its parsed
    connection dict. -/
def instConnections (instName : String) (block : String) : List (String × String) :=
  let portBlock := match afterInstParen instName.toList block.toList with
    | some r => String.mk r
    | none => block
  dictOfPairs (extract_port_pairs portBlock)

/-- The (params-shape) forward scan for the `) <name> (` line: returns the
    offset of that line, the name, and the lines from it onward. -/
def findInstLine : List String → Nat → Option (Nat × String × List String)
  | [], _ => none
  | l :: rest, j =>
    match searchInstName (strip_comments l).toList with
    | some w => some (j, w, l :: rest)
    | none => findInstLine rest (j + 1)

/-- `check_system.py` — `detect_instantiations`: the main line loop. The
    fuel argument (initialized to the number of lines) makes the recursion
    structural; every iteration consumes at least one line. -/
def detectInstsFuel : Nat → List String → List Inst
  | 0, _ => []
  | _fuel + 1, [] => []
  | fuel + 1, l :: rest =>
    let line := strip_comments l
    match matchInline line.toList with
    | some (submodule, instName) =>
      let p := accumulateFrom line rest
      ⟨submodule, instName, instConnections instName p.1⟩ ::
        detectInstsFuel fuel (rest.drop p.2)
    | none =>
      match matchParamsStart line.toList with
      | some submodule =>
        (match findInstLine (l :: rest) 0 with
         | some (j, instName, fromInst) =>
           (match fromInst with
            | [] => detectInstsFuel fuel rest
            | il :: irest =>
              let p := accumulateFrom (strip_comments il) irest
              ⟨submodule, instName, instConnections instName p.1⟩ ::
                detectInstsFuel fuel ((l :: rest).drop (j + p.2 + 1)))
         | none => detectInstsFuel fuel rest)
      | none => detectInstsFuel fuel rest

def detect_instantiations (lines : List String) : List Inst :=
  detectInstsFuel lines.length lines

/-! ## System analysis (`check_system.py`, `analyze_system`) -/

/-- `content.splitlines()` with `rstrip` and blank-line filtering, as in
    `analyze_system`. -/
def linesOf (content : String) : List String :=
  ((splitChar '\n' content.toList).map String.mk).filterMap (fun l =>
    if pyStrip l = "" then none
    else some (pyRstrip l))

structure ModuleInfo where
  ports : List String
  signals : List String
deriving DecidableEq, Repr

structure SystemInfo where
  modules : List (String × ModuleInfo)
  connections : List Conn
deriving DecidableEq, Repr

/-- Dict assignment `system["modules"][name] = info`. -/
def upsertModule : List (String × ModuleInfo) → String × ModuleInfo →
    List (String × ModuleInfo)
  | [], p => [p]
  | q :: rest, p => if q.1 = p.1 then (q.1, p.2) :: rest else q :: upsertModule rest p

/-- Per-file processing of `analyze_system`: strip comments from the whole
    content, split into non-blank lines, detect the module name, ports and
    signals, and emit one `Conn` per port binding of every instantiation. -/
def analyzeFile (sys : SystemInfo) (content : String) : SystemInfo :=
  let lines := linesOf (strip_comments content)
  let moduleName := detect_module_name lines
  let ps := detect_ports_and_signals lines
  let insts := detect_instantiations lines
  let newConns := insts.flatMap (fun inst =>
    inst.connections.map (fun pc =>
      Conn.mk moduleName inst.submodule inst.instanceName pc.1 pc.2))
  { modules := upsertModule sys.modules (moduleName, ⟨ps.1, ps.2⟩),
    connections := sys.connections ++ newConns }

/-- `check_system.py` — `analyze_system(files)`, taking file contents. -/
def analyze_system (files : List String) : SystemInfo :=
  files.foldl analyzeFile ⟨[], []⟩

/-! ## Width analysis (`check_system.py`,
     `extract_signal_declarations` / `detect_width_mismatches`) -/

/-- A declared width: a number, or the name of a symbolic parameter. -/
inductive Width where
  | num (n : Nat)
  | sym (s : String)
deriving DecidableEq, Repr

def digitsToNat (ds : List Char) : Nat :=
  ds.foldl (fun acc c => 10 * acc + (c.toNat - '0'.toNat)) 0

/-- One attempt of `\[(\d+)\s*:\s*(\d+)\]` at the current position. -/
def tryNumRangeAt (cs : List Char) : Option (Nat × Nat) :=
  match cs with
  | '[' :: rest =>
    let d1 := rest.takeWhile Char.isDigit
    if d1 = [] then none
    else
      match dropSpaces (rest.drop d1.length) with
      | ':' :: r2 =>
        let r3 := dropSpaces r2
        let d2 := r3.takeWhile Char.isDigit
        if d2 = [] then none
        else
          match r3.drop d2.length with
          | ']' :: _ => some (digitsToNat d1, digitsToNat d2)
          | _ => none
      | _ => none
  | _ => none

/-- `re.search(r"\[(\d+)\s*:\s*(\d+)\]", s)`: first match. -/
def findNumRange : List Char → Option (Nat × Nat)
  | [] => none
  | c :: rest =>
    match tryNumRangeAt (c :: rest) with
    | some r => some r
    | none => findNumRange rest

/-- `\s*:\s*0\]` — the tail of the parameterized-range pattern. -/
def parseColonZero (cs : List Char) : Bool :=
  match dropSpaces cs with
  | ':' :: r =>
    (match dropSpaces r with
     | '0' :: ']' :: _ => true
     | _ => false)
  | _ => false

/-- One attempt of `\[(\w+)(?:\s*-\s*1)?\s*:\s*0\]`: the optional `- 1` is
    preferred, falling back to the bare form (no other backtracking can
    succeed, since `\w+` is maximal and `-`/`:` are not word characters). -/
def tryParamRangeAt (cs : List Char) : Option String :=
  match cs with
  | '[' :: rest =>
    let p := takeWord rest
    if p.1 = [] then none
    else
      let withOpt : Bool :=
        match dropSpaces p.2 with
        | '-' :: r =>
          (match dropSpaces r with
           | '1' :: r2 => parseColonZero r2
           | _ => false)
        | _ => false
      if withOpt || parseColonZero p.2 then some (String.mk p.1) else none
  | _ => none

/-- `re.search(r"\[(\w+)(?:\s*-\s*1)?\s*:\s*0\]", s)`: first match. -/
def findParamRange : List Char → Option String
  | [] => none
  | c :: rest =>
    match tryParamRangeAt (c :: rest) with
    | some r => some r
    | none => findParamRange rest

def declKeywords : List String :=
  ["input", "output", "inout", "reg", "wire", "parameter", "localparam"]

/-- `re.match(r"^(input|output|inout|reg|wire|parameter|localparam)\b", line)`. -/
def isDeclLine (line : String) : Bool :=
  declKeywords.any (fun kw =>
    kw.toList.isPrefixOf line.toList &&
      (match line.toList.drop kw.length with
       | c :: _ => ! isWordChar c
       | [] => true))

/-- Every maximal run of word characters (`re.findall(r"\b\w+\b", line)`). -/
def wordRunsAux : List Char → List Char → List String
  | [], acc => if acc.isEmpty then [] else [String.mk acc.reverse]
  | c :: rest, acc =>
    if isWordChar c then wordRunsAux rest (c :: acc)
    else if acc.isEmpty then wordRunsAux rest []
    else String.mk acc.reverse :: wordRunsAux rest []

def wordRuns (cs : List Char) : List String := wordRunsAux cs []

/-- The width a declaration line assigns: a numeric range `[msb:lsb]`
    (width `|msb - lsb| + 1`), else a parameterized range (symbolic), else
    the default 1. -/
def widthOf (line : String) : Width :=
  match findNumRange line.toList with
  | some (msb, lsb) => Width.num (((msb : Int) - (lsb : Int)).natAbs + 1)
  | none =>
    match findParamRange line.toList with
    | some nm => Width.sym nm
    | none => Width.num 1

/-- `check_system.py` — `extract_signal_declarations`, as the list of
    `(name, width)` assignments in execution order (each non-keyword word
    token of a declaration line receives the line's width). -/
def declsOf (lines : List String) : List (String × Width) :=
  lines.flatMap (fun raw =>
    let line := pyStrip raw
    if isDeclLine line then
      (wordRuns line.toList).filterMap (fun n =>
        if n ∈ declKeywords then none else some (n, widthOf line))
    else [])

/-- Dict lookup on the declaration assignments: the last write wins. -/
def declLookup (ds : List (String × Width)) (n : String) : Option Width :=
  (ds.reverse.find? (fun p => p.1 = n)).map (fun p => p.2)

/-- The regex class `[\w\[\]:]` of an assignment's right-hand side. -/
def isRhsChar (c : Char) : Bool :=
  isWordChar c || c = '[' || c = ']' || c = ':'

/-- Maximal run of right-hand-side characters. -/
def takeRhs : List Char → List Char × List Char
  | [] => ([], [])
  | c :: rest =>
    if isRhsChar c then
      let p := takeRhs rest
      (c :: p.1, p.2)
    else ([], c :: rest)

/-- One attempt of `(\w+)\s*(?:<=|=)\s*([\w\[\]:]+)` at the current
    position. -/
def tryAssignAt (cs : List Char) : Option ((String × String) × List Char) :=
  match parseWordPos cs with
  | none => none
  | some (w, r1) =>
    let afterEq : Option (List Char) :=
      match dropSpaces r1 with
      | '<' :: '=' :: r => some r
      | '=' :: r => some r
      | _ => none
    match afterEq with
    | none => none
    | some r3 =>
      let p := takeRhs (dropSpaces r3)
      if p.1 ≠ [] then some ((String.mk w, String.mk p.1), p.2) else none

/-- `re.findall` scan for assignment-like statements. -/
def scanAssignsFuel : Nat → List Char → List (String × String)
  | 0, _ => []
  | _fuel + 1, [] => []
  | fuel + 1, c :: rest =>
    match tryAssignAt (c :: rest) with
    | some (p, rest') => p :: scanAssignsFuel fuel rest'
    | none => scanAssignsFuel fuel rest

def scanAssigns (cs : List Char) : List (String × String) :=
  scanAssignsFuel cs.length cs

/-- `is_literal`: `^\d+$` or `^\d+'[bhdo][0-9a-fA-F]+$`. -/
def isHexChar (c : Char) : Bool :=
  c.isDigit || ('a' ≤ c && c ≤ 'f') || ('A' ≤ c && c ≤ 'F')

def is_literal (t : String) : Bool :=
  let cs := t.toList
  (!cs.isEmpty && cs.all Char.isDigit) ||
  (let ds := cs.takeWhile Char.isDigit
   !ds.isEmpty &&
     (match cs.drop ds.length with
      | q :: b :: rest =>
        q = Char.ofNat 39 && (b = 'b' || b = 'h' || b = 'd' || b = 'o') &&
          !rest.isEmpty && rest.all isHexChar
      | _ => false))

/-- `is_keyword`: the skipped SystemVerilog keywords. -/
def is_keyword (t : String) : Bool :=
  t ∈ ["if", "else", "begin", "end", "case", "endcase", "default", "posedge", "negedge"]

/-- `is_fsm_state`: the skipped FSM state labels. -/
def is_fsm_state (t : String) : Bool :=
  t ∈ ["IDLE", "RESP", "GO", "ONE", "BUSY", "START", "STOP"]

structure WidthIssue where
  lhs : String
  lhs_width : Nat
  rhs : String
  rhs_width : Nat
deriving DecidableEq, Repr

/-- The right-hand side's width: an inline numeric range, else an inline
    parameterized range (symbolic), else declaration lookup with default
    1. -/
def rhsWidthOf (decls : List (String × Width)) (rhs : String) : Width :=
  match findNumRange rhs.toList with
  | some (msb, lsb) => Width.num (((msb : Int) - (lsb : Int)).natAbs + 1)
  | none =>
    match findParamRange rhs.toList with
    | some nm => Width.sym nm
    | none => (declLookup decls rhs).getD (Width.num 1)

/-- The per-assignment body of the `detect_width_mismatches` loop. -/
def mismatchFor (decls : List (String × Width)) (a : String × String) :
    Option WidthIssue :=
  if is_literal a.2 || is_keyword a.2 || is_fsm_state a.2 then none
  else
    let lhsW := (declLookup decls a.1).getD (Width.num 1)
    let rhsW := rhsWidthOf decls a.2
    match lhsW, rhsW with
    | Width.num x, Width.num y => if x ≠ y then some ⟨a.1, x, a.2, y⟩ else none
    | _, _ => none

/-- `check_system.py` — `detect_width_mismatches(rtl_lines)`. -/
def detect_width_mismatches (lines : List String) : List WidthIssue :=
  (scanAssigns (joinSpace lines)).filterMap
    (mismatchFor (declsOf lines))

/-! ## General lemmas -/

theorem char_ofNatAux_toNat (n : Nat) (hv : n.isValidChar) :
    (Char.ofNatAux n hv).toNat = n := rfl

theorem char_ofNat_toNat (n : Nat) (h : n < 55296) : (Char.ofNat n).toNat = n := by
  have hv : n.isValidChar := Or.inl h
  simp only [Char.ofNat, dif_pos hv]
  exact char_ofNatAux_toNat n hv

theorem toLower_idem (c : Char) : c.toLower.toLower = c.toLower := by
  by_cases h : c.toNat ≥ 65 ∧ c.toNat ≤ 90
  · have h32 : (Char.ofNat (c.toNat + 32)).toNat = c.toNat + 32 :=
      char_ofNat_toNat _ (by omega)
    simp only [Char.toLower, if_pos h]
    rw [if_neg (by rw [h32]; omega)]
  · simp only [Char.toLower, if_neg h]

theorem lowerChars_idem (cs : List Char) : lowerChars (lowerChars cs) = lowerChars cs := by
  simp only [lowerChars, List.map_map]
  exact List.map_congr_left (fun c _ => toLower_idem c)

theorem mem_keyAccum_go (f : α → String) (ps : List α) :
    ∀ acc x, (x ∈ ps.foldl (fun acc p => if f p ∈ acc then acc else acc ++ [f p]) acc ↔
      x ∈ acc ∨ ∃ p ∈ ps, f p = x) := by
  induction ps with
  | nil => simp
  | cons q qs ih =>
    intro acc x
    simp only [List.foldl_cons]
    rw [ih]
    by_cases h : f q ∈ acc
    · rw [if_pos h]
      constructor
      · rintro (hx | ⟨p, hp, hfp⟩)
        · exact Or.inl hx
        · exact Or.inr ⟨p, List.mem_cons_of_mem q hp, hfp⟩
      · rintro (hx | ⟨p, hp, hfp⟩)
        · exact Or.inl hx
        · rcases List.mem_cons.mp hp with rfl | hp2
          · exact Or.inl (hfp ▸ h)
          · exact Or.inr ⟨p, hp2, hfp⟩
    · rw [if_neg h]
      constructor
      · rintro (hx | ⟨p, hp, hfp⟩)
        · rcases List.mem_append.mp hx with hx2 | hx2
          · exact Or.inl hx2
          · exact Or.inr ⟨q, List.mem_cons_self q qs, (List.mem_singleton.mp hx2).symm⟩
        · exact Or.inr ⟨p, List.mem_cons_of_mem q hp, hfp⟩
      · rintro (hx | ⟨p, hp, hfp⟩)
        · exact Or.inl (List.mem_append.mpr (Or.inl hx))
        · rcases List.mem_cons.mp hp with rfl | hp2
          · exact Or.inl (List.mem_append.mpr (Or.inr (by simp [hfp])))
          · exact Or.inr ⟨p, hp2, hfp⟩

theorem mem_keyAccum (f : α → String) (ps : List α) (x : String) :
    x ∈ keyAccum f ps ↔ ∃ p ∈ ps, f p = x := by
  rw [keyAccum, mem_keyAccum_go]
  simp

theorem nodup_keyAccum_go (f : α → String) (ps : List α) :
    ∀ acc : List String, acc.Nodup →
      (ps.foldl (fun acc p => if f p ∈ acc then acc else acc ++ [f p]) acc).Nodup := by
  induction ps with
  | nil => intro acc h; simpa using h
  | cons q qs ih =>
    intro acc h
    simp only [List.foldl_cons]
    by_cases hq : f q ∈ acc
    · rw [if_pos hq]; exact ih acc h
    · rw [if_neg hq]
      exact ih _ (by simp [List.nodup_append, h, hq])

theorem nodup_keyAccum (f : α → String) (ps : List α) : (keyAccum f ps).Nodup :=
  nodup_keyAccum_go f ps [] List.nodup_nil

theorem sortedDedup_sorted (l : List String) :
    (sortedDedup l).Sorted (fun a b => a ≤ b) :=
  List.sorted_insertionSort _ _

theorem sortedDedup_nodup (l : List String) : (sortedDedup l).Nodup :=
  ((List.perm_insertionSort _ _).nodup_iff).mpr (List.nodup_dedup l)

theorem mem_sortedDedup (l : List String) (x : String) :
    x ∈ sortedDedup l ↔ x ∈ l := by
  rw [sortedDedup]
  rw [(List.perm_insertionSort _ _).mem_iff]
  exact List.mem_dedup

/-! ## C3 — connection-map symmetry -/

theorem connMapEntries_symm {conns : List Conn} {a b : String}
    (h : (a, b) ∈ connMapEntries conns) : (b, a) ∈ connMapEntries conns := by
  simp only [connMapEntries, List.mem_flatMap] at h ⊢
  obtain ⟨c, hc, p, hp, ch, hch, hpair⟩ := h
  refine ⟨c, hc, p, hp, ch, hch, ?_⟩
  simp only [List.mem_cons, List.mem_singleton] at hpair ⊢
  rcases hpair with h1 | h1 | h1
  · exact Or.inr (Or.inl (by rw [Prod.mk.injEq] at h1 ⊢; exact ⟨h1.2, h1.1⟩))
  · exact Or.inl (by rw [Prod.mk.injEq] at h1 ⊢; exact ⟨h1.2, h1.1⟩)
  · exact absurd h1 (by simp)

theorem mem_connMapBag {entries : List (String × String)} {k b : String} :
    b ∈ entries.filterMap (fun e => if e.1 = k then some e.2 else none) ↔
      (k, b) ∈ entries := by
  simp only [List.mem_filterMap]
  constructor
  · rintro ⟨⟨k1, b1⟩, hmem, hite⟩
    by_cases hk : k1 = k
    · rw [if_pos hk] at hite
      cases hite
      rw [← hk]
      exact hmem
    · rw [if_neg hk] at hite
      cases hite
  · intro hmem
    exact ⟨(k, b), hmem, by simp⟩

theorem lookupCM_map_keys (keys : List String) (f : String → List String) (k : String) :
    lookupCM (keys.map (fun k => (k, f k))) k =
      if k ∈ keys then some (f k) else none := by
  induction keys with
  | nil => simp [lookupCM]
  | cons a rest ih =>
    by_cases ha : a = k
    · subst ha
      rw [if_pos (List.mem_cons_self a rest)]
      simp [lookupCM]
    · have hstep : lookupCM ((a :: rest).map (fun k => (k, f k))) k =
          lookupCM (rest.map (fun k => (k, f k))) k := by
        simp only [List.map_cons, lookupCM]
        rw [List.find?_cons_of_neg _ (by simp [ha])]
      rw [hstep, ih]
      by_cases hm : k ∈ rest
      · rw [if_pos hm, if_pos (List.mem_cons_of_mem a hm)]
      · rw [if_neg hm, if_neg (by
          simp only [List.mem_cons]
          rintro (h | h)
          · exact ha h.symm
          · exact hm h)]

theorem lookup_build_connection_map (conns : List Conn) (k : String) :
    lookupCM (build_connection_map conns) k =
      if k ∈ firstOccurKeys (connMapEntries conns)
      then some (((connMapEntries conns).filterMap
            (fun e => if e.1 = k then some e.2 else none)).dedup)
      else none := by
  rw [build_connection_map]
  exact lookupCM_map_keys _ _ k

/-- C3. Connection-map symmetry: whenever the map built by
    `build_connection_map` lists `b` among `a`'s candidates, it lists `a`
    among `b`'s candidates, and every key's candidate list is
    duplicate-free — every `(parent_variant, child_variant)` pair is
    inserted in both directions, and each list is deduplicated. -/
theorem C3_connection_map_symmetric (conns : List Conn) :
    (∀ a b vs, lookupCM (build_connection_map conns) a = some vs → b ∈ vs →
       ∃ ws, lookupCM (build_connection_map conns) b = some ws ∧ a ∈ ws) ∧
    (∀ k vs, lookupCM (build_connection_map conns) k = some vs → vs.Nodup) := by
  constructor
  · intro a b vs hl hb
    rw [lookup_build_connection_map] at hl
    by_cases ha : a ∈ firstOccurKeys (connMapEntries conns)
    · rw [if_pos ha] at hl
      cases hl
      have hab : (a, b) ∈ connMapEntries conns :=
        mem_connMapBag.mp (List.mem_dedup.mp hb)
      have hba : (b, a) ∈ connMapEntries conns := connMapEntries_symm hab
      have hbk : b ∈ firstOccurKeys (connMapEntries conns) := by
        rw [firstOccurKeys, mem_keyAccum]
        exact ⟨(b, a), hba, rfl⟩
      refine ⟨_, by rw [lookup_build_connection_map, if_pos hbk], ?_⟩
      exact List.mem_dedup.mpr (mem_connMapBag.mpr hba)
    · rw [if_neg ha] at hl
      cases hl
  · intro k vs hl
    rw [lookup_build_connection_map] at hl
    by_cases hk : k ∈ firstOccurKeys (connMapEntries conns)
    · rw [if_pos hk] at hl
      cases hl
      exact List.nodup_dedup _
    · rw [if_neg hk] at hl
      cases hl

/-- C3 witness: the symmetry theorem applied at a concrete connection. -/
theorem C3_connection_map_symmetric_witness :
    ∃ ws, lookupCM (build_connection_map [⟨"soc", "uart", "u_uart", "tx_busy", "uart_busy"⟩])
        "tx_busy" = some ws ∧ "uart_busy" ∈ ws :=
  (C3_connection_map_symmetric [⟨"soc", "uart", "u_uart", "tx_busy", "uart_busy"⟩]).1
    "uart_busy" "tx_busy" ["u_uart.tx_busy", "tx_busy"] (by decide) (by decide)

/-! ## C5 — flattening rule and soundness -/

theorem mem_connParentKeys (conns : List Conn) (x : String) :
    x ∈ connParentKeys conns ↔ ∃ c ∈ conns, c.parent_module = x :=
  mem_keyAccum _ conns x

/-- C5. Flattening rule and soundness: a flattened record is emitted
    exactly for the pairs `(c, d)` with `d.parent_module = c.child_module`
    and `c.child_port` among the identifier tokens of `d.parent_signal`,
    carrying precisely the fields `mkFlat c d` (so every via-instance /
    via-module comes from an actual pair of input connections); flattening
    an empty connection list yields the empty list. -/
theorem C5_flattening_sound (conns : List Conn) :
    (∀ f : FlatConn, f ∈ flatten_connections conns ↔
      ∃ c ∈ conns, ∃ d ∈ conns, d.parent_module = c.child_module ∧
        c.child_port ∈ tokenize_signal_expr d.parent_signal ∧ f = mkFlat c d) ∧
    flatten_connections ([] : List Conn) = [] := by
  refine ⟨fun f => ?_, rfl⟩
  simp only [flatten_connections, List.mem_flatMap]
  constructor
  · rintro ⟨pm, _hpm, c, hc, hin⟩
    have hc2 := List.mem_filter.mp hc
    by_cases hck : c.child_module ∈ connParentKeys conns
    · rw [if_pos hck] at hin
      simp only [List.mem_flatMap] at hin
      obtain ⟨d, hd, hif⟩ := hin
      have hd2 := List.mem_filter.mp hd
      by_cases htok : c.child_port ∈ tokenize_signal_expr d.parent_signal
      · rw [if_pos htok] at hif
        exact ⟨c, hc2.1, d, hd2.1, by simpa using hd2.2, htok,
          List.mem_singleton.mp hif⟩
      · rw [if_neg htok] at hif
        cases hif
    · rw [if_neg hck] at hin
      cases hin
  · rintro ⟨c, hc, d, hd, hdp, htok, rfl⟩
    refine ⟨c.parent_module, ?_, c, ?_, ?_⟩
    · exact (mem_connParentKeys conns _).mpr ⟨c, hc, rfl⟩
    · exact List.mem_filter.mpr ⟨hc, by simp⟩
    · rw [if_pos ((mem_connParentKeys conns _).mpr ⟨d, hd, hdp⟩)]
      simp only [List.mem_flatMap]
      refine ⟨d, List.mem_filter.mpr ⟨hd, by simp [hdp]⟩, ?_⟩
      rw [if_pos htok]
      exact List.mem_singleton.mpr rfl

/-! ## C10 — extracted port and signal lists are sorted and deduplicated -/

/-- C10. For every input, the ports list and the signals list returned by
    `detect_ports_and_signals` are sorted in (code-point) alphabetical
    order and duplicate-free, whatever the order and multiplicity of the
    declarations in the text — declaration order is not preserved. -/
theorem C10_ports_signals_sorted_dedup (lines : List String) :
    ((detect_ports_and_signals lines).1.Sorted (fun a b => a ≤ b) ∧
      (detect_ports_and_signals lines).1.Nodup) ∧
    ((detect_ports_and_signals lines).2.Sorted (fun a b => a ≤ b) ∧
      (detect_ports_and_signals lines).2.Nodup) :=
  ⟨⟨sortedDedup_sorted _, sortedDedup_nodup _⟩,
   ⟨sortedDedup_sorted _, sortedDedup_nodup _⟩⟩

/-! ## C1 — value-resolution trigger semantics -/

theorem find_connected_signal_nil (sig : String) (headers : List String) :
    find_connected_signal sig headers [] = none := rfl

/-- C1. Value-resolution trigger semantics: a value is "empty" exactly when
    it trims to `""`, `"-"` or `"?"` (so `"x"` and `"z"` are not empty); a
    non-empty direct value is returned unchanged (fallback never fires); an
    empty target whose found connected column carries `"x"` is filled with
    `"x"`; and when no found candidate carries a non-empty value the target
    keeps its (empty) direct value. -/
theorem C1_value_resolution_trigger :
    (∀ v : String, is_empty_value v =
        (pyStrip v = "" || pyStrip v = "-" || pyStrip v = "?")) ∧
    (is_empty_value "x" = false ∧ is_empty_value "z" = false) ∧
    (∀ (connMap : List (String × List String)) (row : Row) (sig v : String),
        is_empty_value v = false → resolveCell connMap row sig v = v) ∧
    (∀ (connMap : List (String × List String)) (row : Row) (sig v n : String) (i : Nat),
        is_empty_value v = true →
        find_connected_signal sig (rowKeys row) connMap = some (n, i) → n ≠ "" →
        rowGet row n = "x" → resolveCell connMap row sig v = "x") ∧
    (∀ (connMap : List (String × List String)) (row : Row) (sig v : String),
        is_empty_value v = true →
        (∀ n i, find_connected_signal sig (rowKeys row) connMap = some (n, i) →
          n ≠ "" → is_empty_value (rowGet row n) = true) →
        resolveCell connMap row sig v = v ∧
          is_empty_value (resolveCell connMap row sig v) = true) := by
  refine ⟨fun v => rfl, by decide, ?_, ?_, ?_⟩
  · intro connMap row sig v h
    rw [resolveCell, if_neg (by simp [h])]
  · intro connMap row sig v n i hemp hfind hn hx
    have hcm : connMap ≠ [] := by
      intro h0
      rw [h0, find_connected_signal_nil] at hfind
      cases hfind
    rw [resolveCell, if_pos ⟨by simp [hemp], hcm⟩, hfind]
    simp only [if_pos hn, hx]
    rw [if_pos (by decide)]
  · intro connMap row sig v hemp hall
    by_cases hcm : connMap = []
    · rw [resolveCell, if_neg (by simp [hcm])]
      exact ⟨rfl, hemp⟩
    · rw [resolveCell, if_pos ⟨by simp [hemp], hcm⟩]
      cases hfind : find_connected_signal sig (rowKeys row) connMap with
      | none => exact ⟨rfl, hemp⟩
      | some r =>
        obtain ⟨n, i⟩ := r
        by_cases hn : n = ""
        · simp only [hn]
          rw [if_neg (by simp)]
          exact ⟨rfl, hemp⟩
        · have hv := hall n i hfind hn
          simp only [if_pos hn]
          rw [if_neg (by simp [hv])]
          exact ⟨rfl, hemp⟩

/-- C1 witness: the trigger theorem applied at concrete rows — a non-empty
    `"1"` is kept, an empty `"-"` is filled with a connected `"x"`, and an
    empty `"?"` stays empty when the connected value is itself empty. -/
theorem C1_value_resolution_trigger_witness :
    resolveCell [("t", ["a"])] [("a", "x")] "t" "1" = "1" ∧
    resolveCell [("t", ["a"])] [("a", "x")] "t" "-" = "x" ∧
    resolveCell [("t", ["a"])] [("a", "-")] "t" "?" = "?" := by
  refine ⟨?_, ?_, ?_⟩
  · exact C1_value_resolution_trigger.2.2.1 [("t", ["a"])] [("a", "x")] "t" "1" (by decide)
  · exact C1_value_resolution_trigger.2.2.2.1 [("t", ["a"])] [("a", "x")] "t" "-" "a" 0
      (by decide) (by decide) (by decide) (by decide)
  · exact (C1_value_resolution_trigger.2.2.2.2 [("t", ["a"])] [("a", "-")] "t" "?"
      (by decide)
      (fun n i hf _ => by
        rw [show find_connected_signal "t" (rowKeys [("a", "-")]) [("t", ["a"])] =
          some ("a", 0) from by decide] at hf
        injection hf with hf2
        rw [show n = "a" from congrArg Prod.fst hf2.symm]
        decide)).1

/-! ## C2 — candidate search order

The specification's description of the search differs from the code in one
point: the specification says the first candidate/strategy hit **whose
observed value is non-empty** wins, while `find_connected_signal` returns
the first candidate/strategy hit regardless of its value and `build_table`
then simply declines to copy an empty value (no further candidate is
tried). `firstHitNonEmpty` renders the specification's words, for
comparison with the code's `firstHit`. -/

/-- The candidate search as the specification's sentence describes it:
    candidates in order, the code's four strategies in order, but a hit
    whose observed row value is empty is skipped and the search
    continues. -/
def firstHitNonEmpty (row : Row) (headers : List String) : List String → Option (String × Nat)
  | [] => none
  | c :: rest =>
    match tryCandidate headers c with
    | some (n, i) =>
      if is_empty_value (rowGet row n) then firstHitNonEmpty row headers rest
      else some (n, i)
    | none => firstHitNonEmpty row headers rest

/-- C2 counterexample: with candidates `["a", "b"]` for target `"t"`, where
    column `"a"` holds the empty value and column `"b"` holds `"1"`, the
    claim's search (first candidate whose observed value is non-empty)
    selects `"b"` and would copy `"1"`, but the code's resolver stops at
    the first matching candidate `"a"` and, its value being empty, leaves
    the target at `"-"` — it never reaches `"b"`. -/
theorem C2_counterexample :
    firstHitNonEmpty [("a", ""), ("b", "1")] ["a", "b"] ["a", "b"] = some ("b", 1) ∧
    rowGet [("a", ""), ("b", "1")] "b" = "1" ∧
    resolveCell [("t", ["a", "b"])] [("a", ""), ("b", "1")] "t" "-" = "-" ∧
    resolveCell [("t", ["a", "b"])] [("a", ""), ("b", "1")] "t" "-" ≠ "1" := by
  decide

theorem firstHit_eq_some (headers : List String) :
    ∀ (cands : List String) (r : String × Nat),
      (firstHit headers cands = some r ↔
        ∃ pre c post, cands = pre ++ c :: post ∧
          (∀ c2 ∈ pre, tryCandidate headers c2 = none) ∧
          tryCandidate headers c = some r) := by
  intro cands
  induction cands with
  | nil =>
    intro r
    constructor
    · intro h
      cases h
    · rintro ⟨pre, c, post, heq, _, _⟩
      exact absurd heq.symm (List.append_ne_nil_of_right_ne_nil pre (List.cons_ne_nil c post))
  | cons c rest ih =>
    intro r
    simp only [firstHit]
    cases htc : tryCandidate headers c with
    | some r0 =>
      constructor
      · intro h
        cases h
        exact ⟨[], c, rest, rfl, by simp, htc⟩
      · rintro ⟨pre, c1, post, heq, hpre, hc1⟩
        cases pre with
        | nil =>
          simp only [List.nil_append] at heq
          cases heq
          rw [htc] at hc1
          exact hc1
        | cons p ps =>
          simp only [List.cons_append, List.cons.injEq] at heq
          have : tryCandidate headers c = none :=
            heq.1 ▸ hpre p (List.mem_cons_self p ps)
          rw [htc] at this
          cases this
    | none =>
      rw [ih r]
      constructor
      · rintro ⟨pre, c1, post, heq, hpre, hc1⟩
        refine ⟨c :: pre, c1, post, by rw [heq]; rfl, ?_, hc1⟩
        intro c2 hc2
        rcases List.mem_cons.mp hc2 with rfl | h2
        · exact htc
        · exact hpre c2 h2
      · rintro ⟨pre, c1, post, heq, hpre, hc1⟩
        cases pre with
        | nil =>
          simp only [List.nil_append] at heq
          cases heq
          rw [htc] at hc1
          cases hc1
        | cons p ps =>
          simp only [List.cons_append, List.cons.injEq] at heq
          exact ⟨ps, c1, post, heq.2, fun c2 h2 => hpre c2 (List.mem_cons_of_mem p h2), hc1⟩

/-- C2 (amended). The resolver tries the Connection-Map candidates in
    order, and for each candidate the four strategies in order (exact,
    normalized, last-component, suffix); the first candidate, under the
    first strategy, that matches **any** waveform header wins, regardless
    of that column's value; the winner's value is copied into the target
    only when it is non-empty, otherwise the target keeps its empty value
    and no further candidate is tried. -/
theorem C2_candidate_search_order :
    (∀ (sig : String) (headers : List String) (cm : List (String × List String)),
        lookupCM cm sig = none → find_connected_signal sig headers cm = none) ∧
    (∀ (sig : String) (headers : List String) (cm : List (String × List String))
        (cands : List String), lookupCM cm sig = some cands →
      ∀ r, (find_connected_signal sig headers cm = some r ↔
        ∃ pre c post, cands = pre ++ c :: post ∧
          (∀ c2 ∈ pre, tryCandidate headers c2 = none) ∧
          tryCandidate headers c = some r)) ∧
    (∀ (headers : List String) (c : String) (r : String × Nat),
      (strategyExact headers c = some r → tryCandidate headers c = some r) ∧
      (strategyExact headers c = none → strategyNorm headers c = some r →
        tryCandidate headers c = some r) ∧
      (strategyExact headers c = none → strategyNorm headers c = none →
        strategyLastComp headers c = some r → tryCandidate headers c = some r) ∧
      (strategyExact headers c = none → strategyNorm headers c = none →
        strategyLastComp headers c = none →
        tryCandidate headers c = strategySuffix headers c)) ∧
    (∀ (cm : List (String × List String)) (row : Row) (sig v n : String) (i : Nat),
        is_empty_value v = true →
        find_connected_signal sig (rowKeys row) cm = some (n, i) → n ≠ "" →
        resolveCell cm row sig v =
          if is_empty_value (rowGet row n) then v else rowGet row n) := by
  refine ⟨?_, ?_, ?_, ?_⟩
  · intro sig headers cm h
    rw [find_connected_signal, h]
  · intro sig headers cm cands h r
    rw [find_connected_signal, h]
    exact firstHit_eq_some headers cands r
  · intro headers c r
    refine ⟨?_, ?_, ?_, ?_⟩
    · intro h1
      rw [tryCandidate, h1]
      rfl
    · intro h1 h2
      rw [tryCandidate, h1, h2]
      rfl
    · intro h1 h2 h3
      rw [tryCandidate, h1, h2, h3]
      rfl
    · intro h1 h2 h3
      rw [tryCandidate, h1, h2, h3]
      rfl
  · intro cm row sig v n i hemp hfind hn
    have hcm : cm ≠ [] := by
      intro h0
      rw [h0, find_connected_signal_nil] at hfind
      cases hfind
    rw [resolveCell, if_pos ⟨by simp [hemp], hcm⟩, hfind]
    simp only [if_pos hn]
    by_cases hv : is_empty_value (rowGet row n) = true
    · rw [if_neg (by simp [hv]), if_pos hv]
    · rw [if_pos (by simp at hv; simp [hv]), if_neg hv]

/-- C2 witness: the amended theorem applied at the counterexample's input —
    the search stops at candidate `"a"` (found by the exact strategy with
    an empty preceding prefix), and the copy rule leaves the empty `"-"` in
    place because `"a"`'s value is empty. -/
theorem C2_candidate_search_order_witness :
    (∃ pre c post, ["a", "b"] = pre ++ c :: post ∧
      (∀ c2 ∈ pre, tryCandidate ["a", "b"] c2 = none) ∧
      tryCandidate ["a", "b"] c = some ("a", 0)) ∧
    resolveCell [("t", ["a", "b"])] [("a", ""), ("b", "1")] "t" "-" = "-" := by
  constructor
  · exact (C2_candidate_search_order.2.1 "t" ["a", "b"] [("t", ["a", "b"])] ["a", "b"]
      (by decide) ("a", 0)).mp (by decide)
  · have h := C2_candidate_search_order.2.2.2 [("t", ["a", "b"])] [("a", ""), ("b", "1")]
      "t" "-" "a" 0 (by decide) (by decide) (by decide)
    rw [h]
    decide

/-! ## C4 — normalization idempotence -/

theorem string_mk_toList (s : String) : String.mk s.toList = s := by
  cases s
  rfl

/-- C4 counterexample: `normalize` is not idempotent — the first pass over
    `"top.top.a"` strips only one `top.` prefix (yielding `"top.a"`), and a
    second pass strips the next one, so
    `normalize (normalize "top.top.a") ≠ normalize "top.top.a"`. -/
theorem C4_counterexample :
    normalize (normalize "top.top.a") ≠ normalize "top.top.a" := by
  decide

/-- C4 (amended). Normalization is idempotent exactly on names whose
    normalized form offers nothing further to strip: whenever a second pass
    finds no `<segment>.dut.` prefix, no `<segment>.tb.` prefix, no `top.`
    prefix and no removable bracket group in `normalize n`, then
    `normalize (normalize n) = normalize n` (lowercasing alone is always
    idempotent). In general a second application can strip more — e.g.
    `normalize "top.top.a" = "top.a"` but a second pass gives `"a"`. The
    spec's two concrete examples hold:
    `normalize "soc_tb.dut.uart_busy" = "uart_busy"` and
    `normalize "reg0[31:0]" = "reg0"`. -/
theorem C4_normalize_idempotent_when_stable :
    (∀ n : String,
      stripHierTag ('d' :: 'u' :: 't' :: '.' :: []) (normalize n).toList = (normalize n).toList →
      stripHierTag ('t' :: 'b' :: '.' :: []) (normalize n).toList = (normalize n).toList →
      stripTop (normalize n).toList = (normalize n).toList →
      removeBrackets (normalize n).toList = (normalize n).toList →
      normalize (normalize n) = normalize n) ∧
    normalize "soc_tb.dut.uart_busy" = "uart_busy" ∧
    normalize "reg0[31:0]" = "reg0" := by
  refine ⟨?_, by decide, by decide⟩
  intro n
  generalize hm : normalize n = m
  intro h1 h2 h3 h4
  show normalize m = m
  have step1 : stripHierTag ('d' :: 'u' :: 't' :: '.' :: []) m.toList = m.toList := h1
  simp only [normalize]
  rw [step1, h2, h3, h4, ← hm]
  have hdata : (normalize n).toList =
      lowerChars (removeBrackets (stripTop
        (stripHierTag ('t' :: 'b' :: '.' :: [])
          (stripHierTag ('d' :: 'u' :: 't' :: '.' :: []) n.toList)))) := rfl
  rw [hdata, lowerChars_idem, ← hdata, string_mk_toList]

/-- C4 witness: the stability hypotheses hold at
    `"soc_tb.dut.uart_busy"` (whose normal form is `"uart_busy"`), so a
    second normalization there changes nothing. -/
theorem C4_normalize_idempotent_witness :
    normalize (normalize "soc_tb.dut.uart_busy") = normalize "soc_tb.dut.uart_busy" :=
  C4_normalize_idempotent_when_stable.1 "soc_tb.dut.uart_busy"
    (by decide) (by decide) (by decide) (by decide)

/-! ## C6 — missing-port detection -/

theorem mem_instKeys (conns : List Conn) (i : String) :
    i ∈ instKeys conns ↔ ∃ c ∈ conns, c.instanceName = i :=
  mem_keyAccum _ conns i

/-- `find?` by instance name over a `filterMap` whose results are keyed by
    the mapped element: on a duplicate-free key list containing `i`, the
    first (and only) hit is `g i`. -/
theorem find?_filterMap_keyed {g : String → Option MissingIssue}
    (hg : ∀ j iss, g j = some iss → iss.instanceName = j) (i : String) :
    ∀ keys : List String, keys.Nodup → i ∈ keys →
      (keys.filterMap g).find? (fun iss => iss.instanceName = i) = g i := by
  have hnone : ∀ keys : List String, i ∉ keys →
      (keys.filterMap g).find? (fun iss => iss.instanceName = i) = none := by
    intro keys
    induction keys with
    | nil => intro _; rfl
    | cons k rest ih =>
      intro hni
      have hki : k ≠ i := fun h => hni (h ▸ List.mem_cons_self k rest)
      have hrest : i ∉ rest := fun h => hni (List.mem_cons_of_mem k h)
      cases hgk : g k with
      | none => rw [List.filterMap_cons_none hgk]; exact ih hrest
      | some iss =>
        rw [List.filterMap_cons_some hgk]
        rw [List.find?_cons_of_neg _ (by simp [hg k iss hgk, hki])]
        exact ih hrest
  intro keys
  induction keys with
  | nil => intro _ h; cases h
  | cons k rest ih =>
    intro hnd hi
    have hnd2 := List.nodup_cons.mp hnd
    rcases List.mem_cons.mp hi with rfl | hi2
    · cases hgk : g i with
      | none => rw [List.filterMap_cons_none hgk]; rw [hnone rest hnd2.1]
      | some iss =>
        rw [List.filterMap_cons_some hgk]
        rw [List.find?_cons_of_pos _ (by simp [hg i iss hgk])]
    · have hki : k ≠ i := fun h => hnd2.1 (h ▸ hi2)
      cases hgk : g k with
      | none => rw [List.filterMap_cons_none hgk]; exact ih hnd2.2 hi2
      | some iss =>
        rw [List.filterMap_cons_some hgk]
        rw [List.find?_cons_of_neg _ (by simp [hg k iss hgk, hki])]
        exact ih hnd2.2 hi2

/-- C6. Missing-port detection: for every instance occurring in the
    connection list, the report contains an entry for it exactly when the
    declared ports of its submodule type minus the ports bound across all
    of its connections is non-empty, and that entry carries exactly this
    difference; the difference's members are exactly the declared-but-
    unbound ports; a submodule type absent from the module map yields an
    empty difference and hence no report; and an instance binding 2 of a
    3-port submodule's ports reports exactly the 1 unbound port. -/
theorem C6_missing_port_detection :
    (∀ (modules : List (String × List String)) (conns : List Conn) (i : String),
      (∃ c ∈ conns, c.instanceName = i) →
      ((detect_missing_connections modules conns).find? (fun iss => iss.instanceName = i) =
        if missingFor modules conns i = [] then none
        else some ⟨i, submoduleOf conns i, missingFor modules conns i⟩)) ∧
    (∀ (modules : List (String × List String)) (conns : List Conn) (i p : String),
      p ∈ missingFor modules conns i ↔
        p ∈ modulePortsLookup modules (submoduleOf conns i) ∧ p ∉ boundPorts conns i) ∧
    (∀ (modules : List (String × List String)) (conns : List Conn) (i : String),
      (∀ entry ∈ modules, entry.1 ≠ submoduleOf conns i) →
      missingFor modules conns i = []) ∧
    detect_missing_connections [("sub", ["a", "b", "c"])]
      [⟨"top", "sub", "u1", "a", "x"⟩, ⟨"top", "sub", "u1", "c", "y"⟩] =
      [⟨"u1", "sub", ["b"]⟩] := by
  refine ⟨?_, ?_, ?_, by decide⟩
  · intro modules conns i hex
    have hi : i ∈ instKeys conns := (mem_instKeys conns i).mpr hex
    have hg : ∀ j iss,
        (if missingFor modules conns j = [] then none
         else some (⟨j, submoduleOf conns j, missingFor modules conns j⟩ : MissingIssue)) = some iss →
        iss.instanceName = j := by
      intro j iss h
      by_cases hm : missingFor modules conns j = []
      · rw [if_pos hm] at h; cases h
      · rw [if_neg hm] at h; cases h; rfl
    exact find?_filterMap_keyed hg i (instKeys conns) (nodup_keyAccum _ conns) hi
  · intro modules conns i p
    rw [missingFor, mem_sortedDedup, List.mem_filter]
    simp
  · intro modules conns i hnone
    rw [missingFor, show modulePortsLookup modules (submoduleOf conns i) = [] from ?_]
    · rfl
    · rw [modulePortsLookup, List.find?_eq_none.mpr ?_]
      intro entry hmem
      simp only [decide_eq_true_eq]
      exact hnone entry (List.mem_reverse.mp hmem)

/-- C6 witness: the general report rule applied to the concrete 2-of-3
    instance. -/
theorem C6_missing_port_witness :
    (detect_missing_connections [("sub", ["a", "b", "c"])]
      [⟨"top", "sub", "u1", "a", "x"⟩, ⟨"top", "sub", "u1", "c", "y"⟩]).find?
        (fun iss => iss.instanceName = "u1") = some ⟨"u1", "sub", ["b"]⟩ := by
  have h := C6_missing_port_detection.1 [("sub", ["a", "b", "c"])]
    [⟨"top", "sub", "u1", "a", "x"⟩, ⟨"top", "sub", "u1", "c", "y"⟩] "u1"
    ⟨⟨"top", "sub", "u1", "a", "x"⟩, by decide, rfl⟩
  rw [h]
  decide

/-! ## C7 — output table shape and order -/

theorem mapOption_rows (md sm : List (String × String)) (cc : Option String)
    (cm : List (String × List String)) (tc : String) :
    ∀ ws : List Row, (∀ row ∈ ws, findTimeCol row = some tc) →
      mapOption (fun row => (findTimeCol row).map (fun t => buildRow md sm cc cm t row)) ws =
        some (ws.map (fun row => buildRow md sm cc cm tc row)) := by
  intro ws
  induction ws with
  | nil => intro _; rfl
  | cons r rs ih =>
    intro h
    have hr := h r (List.mem_cons_self r rs)
    simp only [mapOption, hr, Option.map_some]
    rw [ih (fun row hrow => h row (List.mem_cons_of_mem r hrow))]
    rfl

/-- C7. Output table shape and order: on a non-empty waveform whose rows
    share the first row's columns and carry a `time_` column `tc`, the
    emitted header is the time column, then the clock column when the
    detected clock is truthy, then the remaining metadata signals in
    metadata order; the classification row is empty for the time column,
    `"clock"` for the clock column and the metadata label (default
    `"other"`) otherwise; and the classification row, header row and every
    data row all have the same length. -/
theorem C7_output_table_shape (metadata : List (String × String))
    (clockSignals : List String) (connectivity : Option (List Conn))
    (waveform : List Row) (r0 : Row) (rest : List Row) (tc : String)
    (hw : waveform = r0 :: rest)
    (hk : ∀ row ∈ waveform, rowKeys row = rowKeys r0)
    (ht : findTimeCol r0 = some tc) :
    ∃ cr hdr drs,
      build_table metadata clockSignals waveform connectivity = some (cr, hdr, drs) ∧
      (hdr = [tc] ++
          (if clockTruthy (((match_waveform_signals r0 metadata).find?
              (fun p => p.2 ∈ clockSignals)).map (fun p => p.2))
           then [(((match_waveform_signals r0 metadata).find?
              (fun p => p.2 ∈ clockSignals)).map (fun p => p.2)).getD ""] else []) ++
          (metadata.map (fun p => p.1)).filter (fun s => s ∉ [tc] ++
            (if clockTruthy (((match_waveform_signals r0 metadata).find?
                (fun p => p.2 ∈ clockSignals)).map (fun p => p.2))
             then [(((match_waveform_signals r0 metadata).find?
                (fun p => p.2 ∈ clockSignals)).map (fun p => p.2)).getD ""] else []))) ∧
      (cr = hdr.map (fun col =>
          if col = tc then ""
          else if some col = ((match_waveform_signals r0 metadata).find?
              (fun p => p.2 ∈ clockSignals)).map (fun p => p.2) then "clock"
          else match metadata.find? (fun p => p.1 = col) with
            | some p => p.2
            | none => "other")) ∧
      cr.length = hdr.length ∧ (∀ dr ∈ drs, dr.length = hdr.length) := by
  subst hw
  have htrow : ∀ row ∈ r0 :: rest, findTimeCol row = some tc := by
    intro row hrow
    rw [findTimeCol, hk row hrow]
    exact ht
  have hlast : findTimeCol ((r0 :: rest).getLast (List.cons_ne_nil r0 rest)) = some tc :=
    htrow _ (List.getLast_mem _)
  have hbt : build_table metadata clockSignals (r0 :: rest) connectivity =
      some (classRowOf metadata
              (((match_waveform_signals r0 metadata).find?
                (fun p => p.2 ∈ clockSignals)).map (fun p => p.2)) tc
              (orderedCols metadata
                (((match_waveform_signals r0 metadata).find?
                  (fun p => p.2 ∈ clockSignals)).map (fun p => p.2)) tc),
            orderedCols metadata
              (((match_waveform_signals r0 metadata).find?
                (fun p => p.2 ∈ clockSignals)).map (fun p => p.2)) tc,
            ((r0 :: rest).map (fun row => buildRow metadata (match_waveform_signals r0 metadata)
                (((match_waveform_signals r0 metadata).find?
                  (fun p => p.2 ∈ clockSignals)).map (fun p => p.2))
                (match connectivity with
                 | some cs => build_connection_map cs
                 | none => []) tc row)).map
              (fun e => (orderedCols metadata
                (((match_waveform_signals r0 metadata).find?
                  (fun p => p.2 ∈ clockSignals)).map (fun p => p.2)) tc).map
                  (fun c => rowGet e c))) := by
    simp only [build_table]
    rw [mapOption_rows _ _ _ _ tc (r0 :: rest) htrow, hlast]
  refine ⟨_, _, _, hbt, rfl, rfl, List.length_map _ _, ?_⟩
  intro dr hdrm
  rcases List.mem_map.mp hdrm with ⟨e, _, rfl⟩
  exact List.length_map _ _

/-- C7 witness: the shape theorem applied at a concrete metadata map,
    clock list and two-row waveform. -/
theorem C7_output_table_shape_witness :
    ∃ cr hdr drs,
      build_table [("clk", "clock"), ("uart_busy", "status")] ["clk"]
        [[("time_ps", "0"), ("soc_tb.dut.clk", "0")],
         [("time_ps", "10"), ("soc_tb.dut.clk", "1")]] none = some (cr, hdr, drs) ∧
      cr.length = hdr.length ∧ (∀ dr ∈ drs, dr.length = hdr.length) := by
  obtain ⟨cr, hdr, drs, hbt, _, _, hlen, hrows⟩ :=
    C7_output_table_shape [("clk", "clock"), ("uart_busy", "status")] ["clk"] none
      [[("time_ps", "0"), ("soc_tb.dut.clk", "0")],
       [("time_ps", "10"), ("soc_tb.dut.clk", "1")]]
      [("time_ps", "0"), ("soc_tb.dut.clk", "0")]
      [[("time_ps", "10"), ("soc_tb.dut.clk", "1")]] "time_ps" rfl (by decide) (by decide)
  exact ⟨cr, hdr, drs, hbt, hlen, hrows⟩

/-! ## C8 — width-mismatch conservatism -/

/-- C8. Width-mismatch conservatism: an issue is emitted exactly for an
    extracted assignment whose right-hand side is neither a literal
    constant, nor a recognized keyword, nor a known FSM state label, and
    whose two widths — the left side by declaration lookup with default 1,
    the right side by inline numeric range, inline symbolic range, or
    declaration lookup with default 1 — are both numeric and different; in
    particular no issue ever involves a symbolic width. -/
theorem C8_width_mismatch_conservative (lines : List String) (issue : WidthIssue) :
    issue ∈ detect_width_mismatches lines ↔
      ∃ a ∈ scanAssigns (joinSpace lines),
        is_literal a.2 = false ∧ is_keyword a.2 = false ∧ is_fsm_state a.2 = false ∧
        ∃ x y, (declLookup (declsOf lines) a.1).getD (Width.num 1) = Width.num x ∧
          rhsWidthOf (declsOf lines) a.2 = Width.num y ∧ x ≠ y ∧
          issue = ⟨a.1, x, a.2, y⟩ := by
  rw [detect_width_mismatches, List.mem_filterMap]
  constructor
  · rintro ⟨a, ha, hm⟩
    rw [mismatchFor] at hm
    by_cases hskip : (is_literal a.2 || is_keyword a.2 || is_fsm_state a.2) = true
    · rw [if_pos (by simpa using hskip)] at hm
      cases hm
    · simp only [Bool.or_eq_true, not_or] at hskip
      rw [if_neg (by simp [hskip.1.1, hskip.1.2, hskip.2])] at hm
      refine ⟨a, ha, by simp [hskip.1.1], by simp [hskip.1.2], by simp [hskip.2], ?_⟩
      rcases hl : (declLookup (declsOf lines) a.1).getD (Width.num 1) with x | s
      · rcases hr : rhsWidthOf (declsOf lines) a.2 with y | s
        · rw [hl, hr] at hm
          simp only at hm
          by_cases hxy : x = y
          · rw [if_neg (by simp [hxy])] at hm
            cases hm
          · rw [if_pos (by simp [hxy])] at hm
            cases hm
            exact ⟨x, y, rfl, rfl, hxy, rfl⟩
        · rw [hl, hr] at hm
          cases hm
      · rw [hl] at hm
        rcases hr : rhsWidthOf (declsOf lines) a.2 with y | s2 <;> rw [hr] at hm <;> cases hm
  · rintro ⟨a, ha, hlit, hkw, hfsm, x, y, hl, hr, hxy, rfl⟩
    refine ⟨a, ha, ?_⟩
    rw [mismatchFor, if_neg (by simp [hlit, hkw, hfsm]), hl, hr]
    simp only [if_pos hxy]

/-! ## C9 — behaviour on a file with no module declaration -/

/-- C9 counterexample: on a file with no module declaration the core does
    **not** fail the operation — `detect_module_name` returns the sentinel
    `"unknown_module"` and `analyze_system` records the file's extraction
    under that name and returns normally (here together with a second,
    well-formed file, which is also processed). -/
theorem C9_counterexample :
    detect_module_name (linesOf (strip_comments "wire x;")) = "unknown_module" ∧
    analyze_system ["wire x;"] =
      ⟨[("unknown_module", ⟨[], ["x"]⟩)], []⟩ ∧
    analyze_system ["wire x;", "module m(input a);"] =
      ⟨[("unknown_module", ⟨[], ["x"]⟩), ("m", ⟨["a"], []⟩)], []⟩ := by
  refine ⟨by decide, by decide, by decide⟩

theorem upsertModule_keys (m : List (String × ModuleInfo)) (p : String × ModuleInfo) :
    p.1 ∈ (upsertModule m p).map (fun q => q.1) ∧
    ∀ k, k ∈ m.map (fun q => q.1) → k ∈ (upsertModule m p).map (fun q => q.1) := by
  induction m with
  | nil =>
    constructor
    · exact List.mem_map.mpr ⟨p, List.mem_singleton.mpr rfl, rfl⟩
    · intro k hk
      simp at hk
  | cons q rest ih =>
    by_cases hq : q.1 = p.1
    · rw [upsertModule, if_pos hq]
      constructor
      · exact List.mem_map.mpr ⟨(q.1, p.2), List.mem_cons_self _ _, hq⟩
      · intro k hk
        rcases List.mem_map.mp hk with ⟨e, he, hke⟩
        rcases List.mem_cons.mp he with rfl | he2
        · exact List.mem_map.mpr ⟨(e.1, p.2), List.mem_cons_self _ _, hke⟩
        · exact List.mem_map.mpr ⟨e, List.mem_cons_of_mem _ he2, hke⟩
    · rw [upsertModule, if_neg hq]
      constructor
      · rcases List.mem_map.mp ih.1 with ⟨e, he, hke⟩
        exact List.mem_map.mpr ⟨e, List.mem_cons_of_mem _ he, hke⟩
      · intro k hk
        rcases List.mem_map.mp hk with ⟨e, he, hke⟩
        rcases List.mem_cons.mp he with rfl | he2
        · exact List.mem_map.mpr ⟨e, List.mem_cons_self _ _, hke⟩
        · rcases List.mem_map.mp (ih.2 k (List.mem_map.mpr ⟨e, he2, hke⟩)) with ⟨e2, he2b, hke2⟩
          exact List.mem_map.mpr ⟨e2, List.mem_cons_of_mem _ he2b, hke2⟩

theorem analyzeFile_key (sys : SystemInfo) (content : String) :
    detect_module_name (linesOf (strip_comments content)) ∈
      (analyzeFile sys content).modules.map (fun q => q.1) ∧
    ∀ k, k ∈ sys.modules.map (fun q => q.1) →
      k ∈ (analyzeFile sys content).modules.map (fun q => q.1) := by
  constructor
  · exact (upsertModule_keys sys.modules _).1
  · intro k hk
    exact (upsertModule_keys sys.modules _).2 k hk

theorem foldl_analyzeFile_keys :
    ∀ (files : List String) (sys : SystemInfo),
      (∀ k, k ∈ sys.modules.map (fun q => q.1) →
        k ∈ (files.foldl analyzeFile sys).modules.map (fun q => q.1)) ∧
      (∀ f ∈ files, detect_module_name (linesOf (strip_comments f)) ∈
        (files.foldl analyzeFile sys).modules.map (fun q => q.1)) := by
  intro files
  induction files with
  | nil => exact fun sys => ⟨fun k hk => hk, by simp⟩
  | cons f rest ih =>
    intro sys
    constructor
    · intro k hk
      exact (ih (analyzeFile sys f)).1 k ((analyzeFile_key sys f).2 k hk)
    · intro g hg
      rcases List.mem_cons.mp hg with rfl | hg2
      · exact (ih (analyzeFile sys g)).1 _ (analyzeFile_key sys g).1
      · exact (ih (analyzeFile sys f)).2 g hg2

/-- C9 (amended). A file in which no line carries a module declaration does
    not make the core fail: `detect_module_name` falls back to the sentinel
    name `"unknown_module"` (returning normally, with no error), and
    `analyze_system` processes every file regardless — each file's detected
    module name (the sentinel included) appears among the keys of the
    returned module map, so the remaining files are never aborted. -/
theorem C9_no_module_sentinel :
    (∀ lines : List String,
      (∀ l ∈ lines, parseModuleName ((pyStrip (strip_comments l)).toList) = none) →
      detect_module_name lines = "unknown_module") ∧
    (∀ (files : List String) (f : String), f ∈ files →
      detect_module_name (linesOf (strip_comments f)) ∈
        (analyze_system files).modules.map (fun q => q.1)) := by
  constructor
  · intro lines
    induction lines with
    | nil => intro _; rfl
    | cons l rest ih =>
      intro h
      rw [detect_module_name, h l (List.mem_cons_self l rest)]
      exact ih (fun l2 h2 => h l2 (List.mem_cons_of_mem l h2))
  · intro files f hf
    exact (foldl_analyzeFile_keys files ⟨[], []⟩).2 f hf

/-- C9 witness: the sentinel rule applied to the concrete declaration-less
    file, and the continuation rule applied to a two-file run. -/
theorem C9_no_module_sentinel_witness :
    detect_module_name ["wire x;"] = "unknown_module" ∧
    detect_module_name (linesOf (strip_comments "wire x;")) ∈
      (analyze_system ["wire x;", "module m(input a);"]).modules.map (fun q => q.1) :=
  ⟨C9_no_module_sentinel.1 ["wire x;"] (by decide),
   C9_no_module_sentinel.2 ["wire x;", "module m(input a);"] "wire x;"
     (List.mem_cons_self _ _)⟩

end WaveEye
